import Mathlib

/-
Shallow embedding of the sparse multi-valued bin storage of
src/src/io/multi_val_sparse_bin.hpp (class MultiValSparseBin<VAL_T>).

Modelling conventions:
* BinValue entries are natural numbers.  The C++ narrowing cast
  static_cast<VAL_T>(v) is the identity on every in-range bin value
  (BinValue < num_bin fits in VAL_T by the caller's width choice), so it is
  modelled as the identity.
* std::vector<T> is a List of its elements; reserve only changes capacity and
  has no observable effect, so it is not modelled.  resize(k) keeps the first
  k elements and pads with zeros.
* double gradients/hessians are modelled with exact rationals; the
  density-hint double is Option Rat, where none stands for the IEEE NaN
  produced by the double division 0.0 / 0 when num_data_ = 0.
* OpenMP parallel-for regions write to disjoint destinations (per-worker
  buffers, disjoint row_ptr_ slots), so they are modelled as sequential folds
  over the iteration range.
* Memory prefetch instructions (PREFETCH_T0) are hardware hints with no
  architectural effect; they do not appear in the model, only the loop
  structure they impose does.
-/

/-- Model of std::vector::resize(k) starting from contents l with value-initialised
(zero) padding: keep the first k elements, pad with zeros up to length k. -/
def listResize (l : List ℕ) (k : ℕ) : List ℕ :=
  l.take k ++ List.replicate (k - l.length) 0

/-- Model of std::copy_n(src, cnt, dst + off): overwrite dst positions
off..off+cnt-1 with the first cnt elements of src. -/
def copyIntoAt (src : List ℕ) (cnt : ℕ) (dst : List ℕ) (off : ℕ) : List ℕ :=
  dst.take off ++ src.take cnt ++ dst.drop (off + cnt)

/-- State of a MultiValSparseBin<VAL_T> instance: the private fields of the
C++ class.  num_threads is frozen into the length of t_data_. -/
structure MultiValSparseBin where
  num_data_ : ℕ
  num_bin_ : ℕ
  estimate_element_per_row_ : Option ℚ
  data_ : List ℕ
  row_ptr_ : List ℕ
  t_data_ : List (List ℕ)
deriving DecidableEq, Repr

/-- Constructor MultiValSparseBin(num_data, num_bin, estimate_element_per_row):
row_ptr_ is allocated with num_data+1 zeros; one growable per-worker buffer
exists for each worker beyond worker 0 (worker 0 appends directly to data_);
the estimate-based reserve calls only pre-allocate capacity. -/
def mkMultiValSparseBin (num_data num_bin : ℕ) (estimate : ℚ)
    (num_threads : ℕ) : MultiValSparseBin :=
  { num_data_ := num_data
    num_bin_ := num_bin
    estimate_element_per_row_ := some estimate
    data_ := []
    row_ptr_ := List.replicate (num_data + 1) 0
    t_data_ := List.replicate (num_threads - 1) [] }

/-- RowPtr(idx), i.e. row_ptr_[idx]. -/
def RowPtr (s : MultiValSparseBin) (idx : ℕ) : ℕ :=
  s.row_ptr_.getD idx 0

/-- The value slice of row idx of a finalized structure: the j-loop
for (j = RowPtr(idx); j < RowPtr(idx+1); ++j) reads exactly these entries
of data_. -/
def rowValues (s : MultiValSparseBin) (idx : ℕ) : List ℕ :=
  (s.data_.drop (RowPtr s idx)).take (RowPtr s (idx + 1) - RowPtr s idx)

/-- PushOneRow(tid, idx, values, size): records size into row_ptr_[idx+1]
(still a length at this stage) and appends the first size entries of values
to worker tid's buffer (worker 0 owns data_ itself). -/
def PushOneRow (tid idx : ℕ) (values : List ℕ) (size : ℕ)
    (s : MultiValSparseBin) : MultiValSparseBin :=
  let s1 := { s with row_ptr_ := s.row_ptr_.set (idx + 1) size }
  if tid = 0 then
    { s1 with data_ := s1.data_ ++ values.take size }
  else
    { s1 with
        t_data_ := s1.t_data_.set (tid - 1)
          ((s1.t_data_.getD (tid - 1) []) ++ values.take size) }

/-- One ingestion call, as issued by a loader worker. -/
structure PushCall where
  tid : ℕ
  idx : ℕ
  values : List ℕ
  size : ℕ
deriving DecidableEq, Repr

/-- Replay a list of PushOneRow calls.  The C++ calls run concurrently but
write to disjoint state (distinct row_ptr_ slots, per-worker buffers), so any
serialisation is faithful; quantifying over the call list covers every order
and worker assignment. -/
def IngestAll (s : MultiValSparseBin) (calls : List PushCall) : MultiValSparseBin :=
  calls.foldl (fun s c => PushOneRow c.tid c.idx c.values c.size s) s

/-- The in-place accumulation loop of MoveData:
for (i = 0; i < num_data_; ++i) row_ptr_[i+1] += row_ptr_[i],
turning per-row lengths into exclusive cumulative offsets. -/
def MoveDataCumSum (num_data : ℕ) (rp : List ℕ) : List ℕ :=
  (List.range num_data).foldl
    (fun r i => r.set (i + 1) (r.getD (i + 1) 0 + r.getD i 0)) rp

/-- The offsets vector built by MoveData: offsets starts as the single entry
off0 and each loop turn appends offsets.back() + inc for the next increment. -/
def MoveDataOffsets (off0 : ℕ) (incs : List ℕ) : List ℕ :=
  incs.foldl (fun offs inc => offs ++ [offs.getLastD 0 + inc]) [off0]

/-- MoveData<use_ext_size>(sizes): cumulative-sum row_ptr_ in place; when
worker buffers exist, compute each buffer's placement offset (from the
caller-supplied sizes in external-size mode, else from the buffer sizes with
off0 = data_.size() taken before the resize), resize data_ to
row_ptr_[num_data_], and copy each worker buffer into its offset range. -/
def MoveData (use_ext_size : Bool) (sizes : List ℕ)
    (s : MultiValSparseBin) : MultiValSparseBin :=
  let rp := MoveDataCumSum s.num_data_ s.row_ptr_
  if s.t_data_.length = 0 then
    { s with row_ptr_ := rp }
  else
    let off0 := if use_ext_size then sizes.getD 0 0 else s.data_.length
    let incs := (List.range (s.t_data_.length - 1)).map
      (fun tid => if use_ext_size then sizes.getD (tid + 1) 0
                  else (s.t_data_.getD tid []).length)
    let offsets := MoveDataOffsets off0 incs
    let d0 := listResize s.data_ (rp.getD s.num_data_ 0)
    let d1 := (List.range s.t_data_.length).foldl
      (fun d tid =>
        copyIntoAt (s.t_data_.getD tid [])
          (if use_ext_size then sizes.getD (tid + 1) 0
           else (s.t_data_.getD tid []).length)
          d (offsets.getD tid 0)) d0
    { s with row_ptr_ := rp, data_ := d1 }

/-- The density recomputation of FinishLoad,
static_cast<double>(row_ptr_[num_data_]) / num_data_.  When num_data_ = 0 the
double division has a zero divisor and produces NaN, modelled as none. -/
def FinishLoadDensity (num_data total : ℕ) : Option ℚ :=
  if num_data = 0 then none else some ((total : ℚ) / (num_data : ℚ))

/-- FinishLoad(): MoveData<false>(nullptr), trim storage (shrink_to_fit has no
observable effect on contents), discard the worker buffers, and recompute
estimate_element_per_row_ from the loaded data. -/
def FinishLoad (s : MultiValSparseBin) : MultiValSparseBin :=
  let s1 := MoveData false [] s
  { s1 with
      t_data_ := []
      estimate_element_per_row_ :=
        FinishLoadDensity s1.num_data_ (s1.row_ptr_.getD s1.num_data_ 0) }

/-- Reachable shape of a finalized structure: row_ptr_ has num_data_+1
entries, starts at 0, is non-decreasing, and data_ is exactly the
row_ptr_[num_data_] consolidated values. -/
def Finalized (s : MultiValSparseBin) : Prop :=
  s.row_ptr_.length = s.num_data_ + 1 ∧
  s.row_ptr_.getD 0 0 = 0 ∧
  (∀ i < s.num_data_, s.row_ptr_.getD i 0 ≤ s.row_ptr_.getD (i + 1) 0) ∧
  s.data_.length = s.row_ptr_.getD s.num_data_ 0

instance (s : MultiValSparseBin) : Decidable (Finalized s) := by
  unfold Finalized
  infer_instance

/-- ReSize(num_data): updates the row-count metadata only. -/
def ReSize (num_data : ℕ) (s : MultiValSparseBin) : MultiValSparseBin :=
  if s.num_data_ ≠ num_data then { s with num_data_ := num_data } else s

/-- The histogram is an externally owned flat array of gradient/hessian sums;
it is modelled as a total map from entry index to exact value. -/
def addAt (hist : ℕ → ℚ) (i : ℕ) (v : ℚ) : ℕ → ℚ :=
  fun t => if t = i then hist t + v else hist t

/-- The ACC_GH(hist, i, g, h) macro: ti = i << 1; hist[ti] += g;
hist[ti+1] += h. -/
def accGH (hist : ℕ → ℚ) (b : ℕ) (g h : ℚ) : ℕ → ℚ :=
  addAt (addAt hist (2 * b) g) (2 * b + 1) h

/-- The row selector of ConstructHistogramInner:
idx = use_indices ? data_indices[i] : i. -/
def activeIndex (use_indices : Bool) (data_indices : List ℕ) (i : ℕ) : ℕ :=
  if use_indices then data_indices.getD i 0 else i

/-- The inner j-loop of ConstructHistogramInner over one row's value slice,
applying ACC_GH for each stored bin. -/
def histRowFold (bins : List ℕ) (g h : ℚ) (hist : ℕ → ℚ) : ℕ → ℚ :=
  bins.foldl (fun acc b => accGH acc b g h) hist

/-- The i-loop body of ConstructHistogramInner shared by the prefetching and
plain loops: select the active row, read its slice, and accumulate
gradients[idx] and hessians[idx] (or 1.0 when hessians are absent). -/
def ConstructHistogramLoop (use_indices use_hessians : Bool)
    (s : MultiValSparseBin) (data_indices : List ℕ) (start stop : ℕ)
    (gradients hessians : List ℚ) (out : ℕ → ℚ) : ℕ → ℚ :=
  (List.range' start (stop - start)).foldl
    (fun acc i =>
      let idx := activeIndex use_indices data_indices i
      histRowFold (rowValues s idx) (gradients.getD idx 0)
        (if use_hessians then hessians.getD idx 0 else 1) acc)
    out

/-- ConstructHistogramInner<use_indices, use_prefetch, use_hessians>.  With
use_prefetch the code first runs i from start while i < pf_end = end -
pf_offset (pf_offset = 32 / sizeof(VAL_T), passed here as a parameter), then
the plain loop finishes from wherever i stopped; both loop bodies perform the
same accumulation, the first additionally issuing PREFETCH_T0 hints (no
architectural effect, not modelled).  pf_end is a signed int in the C++; when
end < pf_offset it is negative and the first loop runs zero times, which the
truncated subtraction reproduces. -/
def ConstructHistogramInner (use_indices use_prefetch use_hessians : Bool)
    (pf_offset : ℕ) (s : MultiValSparseBin) (data_indices : List ℕ)
    (start stop : ℕ) (gradients hessians : List ℚ) (out : ℕ → ℚ) : ℕ → ℚ :=
  if use_prefetch then
    let pf_end := stop - pf_offset
    ConstructHistogramLoop use_indices use_hessians s data_indices
      (max start pf_end) stop gradients hessians
      (ConstructHistogramLoop use_indices use_hessians s data_indices
        start pf_end gradients hessians out)
  else
    ConstructHistogramLoop use_indices use_hessians s data_indices
      start stop gradients hessians out

/-- Public overload ConstructHistogram(data_indices, start, end, gradients,
hessians, out) = ConstructHistogramInner<true, true, true>. -/
def ConstructHistogramIdxHess (pf_offset : ℕ) (s : MultiValSparseBin)
    (data_indices : List ℕ) (start stop : ℕ) (gradients hessians : List ℚ)
    (out : ℕ → ℚ) : ℕ → ℚ :=
  ConstructHistogramInner true true true pf_offset s data_indices start stop
    gradients hessians out

/-- Public overload ConstructHistogram(start, end, gradients, hessians, out)
= ConstructHistogramInner<false, false, true> (data_indices = nullptr). -/
def ConstructHistogramHess (s : MultiValSparseBin) (start stop : ℕ)
    (gradients hessians : List ℚ) (out : ℕ → ℚ) : ℕ → ℚ :=
  ConstructHistogramInner false false true 0 s [] start stop
    gradients hessians out

/-- Public overload ConstructHistogram(data_indices, start, end, gradients,
out) = ConstructHistogramInner<true, true, false> (hessians = nullptr). -/
def ConstructHistogramIdxNoHess (pf_offset : ℕ) (s : MultiValSparseBin)
    (data_indices : List ℕ) (start stop : ℕ) (gradients : List ℚ)
    (out : ℕ → ℚ) : ℕ → ℚ :=
  ConstructHistogramInner true true false pf_offset s data_indices start stop
    gradients [] out

/-- Public overload ConstructHistogram(start, end, gradients, out)
= ConstructHistogramInner<false, false, false>. -/
def ConstructHistogramNoHess (s : MultiValSparseBin) (start stop : ℕ)
    (gradients : List ℚ) (out : ℕ → ℚ) : ℕ → ℚ :=
  ConstructHistogramInner false false false 0 s [] start stop gradients [] out

/-- One iteration of the CopySubset loop at position i: append source row
used_indices[i]'s slice to data_ and extend the offset table by that row's
length. -/
def CopySubsetStep (other : MultiValSparseBin) (used_indices : List ℕ)
    (st : MultiValSparseBin) (i : ℕ) : MultiValSparseBin :=
  let u := used_indices.getD i 0
  { st with
      data_ := st.data_ ++ rowValues other u
      row_ptr_ := st.row_ptr_.set (i + 1)
        (st.row_ptr_.getD i 0 + (RowPtr other (u + 1) - RowPtr other u)) }

/-- CopySubset(full_bin, used_indices, num_used_indices): resize row_ptr_ to
num_data_+1 (padding with zeros), clear data_ (the estimate-based reserve only
affects capacity), then for each position i copy source row used_indices[i]'s
slice verbatim and extend the offset table by that row's length. -/
def CopySubset (s other : MultiValSparseBin) (used_indices : List ℕ)
    (num_used_indices : ℕ) : MultiValSparseBin :=
  (List.range num_used_indices).foldl (CopySubsetStep other used_indices)
    { s with row_ptr_ := listResize s.row_ptr_ (s.num_data_ + 1),
             data_ := [] }

/-- The cursor advance while (val >= upper[k]) ++k of CopySubFeature: the
first position k' >= k with val < upper[k'].  The C++ loop would run past the
end of upper if no such position existed (callers guarantee every value lies
below the last upper bound); the model caps the cursor at upper.length. -/
def advanceK (upper : List ℕ) (val k : ℕ) : ℕ :=
  k + ((upper.drop k).takeWhile (fun u => decide (u ≤ val))).length

/-- Loop state of the per-row filter of CopySubFeature: the worker's output
buffer, its write position bid, the range cursor k and the row's emitted
count cur_cnt. -/
structure SubFeatureRowState where
  buf : List ℕ
  bid : ℕ
  k : ℕ
  cur_cnt : ℕ
deriving DecidableEq, Repr

/-- One iteration of the j-loop of CopySubFeature: advance the cursor past
ranges whose upper bound is <= val; if val also reaches the matching lower
bound it survives and val - delta[k] is written at buf[bid++]. -/
def CopySubFeatureRowStep (lower upper delta : List ℕ)
    (st : SubFeatureRowState) (val : ℕ) : SubFeatureRowState :=
  let k := advanceK upper val st.k
  if lower.getD k 0 ≤ val then
    { buf := st.buf.set st.bid (val - delta.getD k 0)
      bid := st.bid + 1
      k := k
      cur_cnt := st.cur_cnt + 1 }
  else
    { st with k := k }

/-- The j-loop of CopySubFeature over one source row (k and cur_cnt start at
0 for each row; bid persists across the block's rows). -/
def CopySubFeatureRow (lower upper delta : List ℕ) (vals : List ℕ)
    (buf : List ℕ) (bid : ℕ) : SubFeatureRowState :=
  vals.foldl (CopySubFeatureRowStep lower upper delta)
    { buf := buf, bid := bid, k := 0, cur_cnt := 0 }

/-- State of one worker block of CopySubFeature: its output buffer, the write
position within it, and the shared row_ptr_ table (each row slot written by
exactly one block). -/
structure SubFeatureBlockState where
  buf : List ℕ
  bid : ℕ
  row_ptr : List ℕ
deriving DecidableEq, Repr

/-- One block of the parallel loop of CopySubFeature: filter rows
start..stop-1 of the source into the block's buffer, recording each row's
emitted count in row_ptr_[i+1]. -/
def CopySubFeatureBlock (other : MultiValSparseBin)
    (lower upper delta : List ℕ) (start stop : ℕ) (buf : List ℕ)
    (rp : List ℕ) : SubFeatureBlockState :=
  (List.range' start (stop - start)).foldl
    (fun st i =>
      let r := CopySubFeatureRow lower upper delta (rowValues other i)
        st.buf st.bid
      { buf := r.buf, bid := r.bid, row_ptr := st.row_ptr.set (i + 1) r.cur_cnt })
    { buf := buf, bid := 0, row_ptr := rp }

/-- The block count of CopySubFeature,
n_block = std::min(num_threads, num_data_ / min_block_size) with
min_block_size = 1024. -/
def CopySubFeatureNBlock (num_threads num_data : ℕ) : ℕ :=
  min num_threads (num_data / 1024)

/-- The block size of CopySubFeature,
block_size = (num_data_ + n_block - 1) / n_block.  When n_block = 0 the C++
integer division is a division by zero (undefined behaviour); the natural
division returns 0 there. -/
def CopySubFeatureBlockSize (num_data n_block : ℕ) : ℕ :=
  (num_data + n_block - 1) / n_block

/-- CopySubFeature(full_bin, lower, upper, delta): split the destination rows
into n_block contiguous blocks, each filtering its rows into its own worker
buffer (block 0 into data_) and recording its exact emitted count in sizes,
then MoveData<true>(sizes).  The parallel blocks write to disjoint buffers and
disjoint row_ptr_ slots and are replayed sequentially. -/
def CopySubFeature (s other : MultiValSparseBin) (lower upper delta : List ℕ)
    (num_threads : ℕ) : MultiValSparseBin :=
  let n_block := CopySubFeatureNBlock num_threads s.num_data_
  let block_size := CopySubFeatureBlockSize s.num_data_ n_block
  let res := (List.range n_block).foldl
    (fun (st : MultiValSparseBin × List ℕ) tid =>
      let cur := st.1
      let start := tid * block_size
      let stop := min cur.num_data_ (start + block_size)
      let buf := if tid = 0 then cur.data_ else cur.t_data_.getD (tid - 1) []
      let b := CopySubFeatureBlock other lower upper delta start stop buf
        cur.row_ptr_
      let next := if tid = 0 then
          { cur with data_ := b.buf, row_ptr_ := b.row_ptr }
        else
          { cur with t_data_ := cur.t_data_.set (tid - 1) b.buf,
                     row_ptr_ := b.row_ptr }
      (next, st.2.set tid b.bid))
    (s, List.replicate (s.t_data_.length + 1) 0)
  MoveData true res.2 res.1

/-- Per-bin contribution of one processed row to histogram entry t, as the
spec states it: each stored bin b adds g at entry 2b and h at entry 2b+1. -/
def rowContrib (bins : List ℕ) (g h : ℚ) (t : ℕ) : ℚ :=
  (bins.countP (fun b => 2 * b == t) : ℚ) * g +
    (bins.countP (fun b => 2 * b + 1 == t) : ℚ) * h

/-- Total contribution accumulated into histogram entry t by one
ConstructHistogram call over positions start..stop-1. -/
def histContrib (use_indices use_hessians : Bool) (s : MultiValSparseBin)
    (data_indices : List ℕ) (start stop : ℕ) (gradients hessians : List ℚ)
    (t : ℕ) : ℚ :=
  ((List.range' start (stop - start)).map
    (fun i =>
      let idx := activeIndex use_indices data_indices i
      rowContrib (rowValues s idx) (gradients.getD idx 0)
        (if use_hessians then hessians.getD idx 0 else 1) t)).sum

lemma range'_succ_concat (s n : ℕ) :
    List.range' s (n + 1) = List.range' s n ++ [s + n] := by
  induction n generalizing s with
  | zero => simp [List.range']
  | succ n ih =>
    rw [List.range'_succ, ih, List.range'_succ]
    simp [List.cons_append, Nat.add_assoc, Nat.add_comm 1 n]

lemma range'_split (s m n : ℕ) :
    List.range' s (m + n) = List.range' s m ++ List.range' (s + m) n := by
  induction m generalizing s with
  | zero => simp [List.range']
  | succ m ih =>
    rw [Nat.succ_add, List.range'_succ, List.range'_succ, ih]
    simp [Nat.add_assoc, Nat.add_comm 1 m]

lemma accGH_apply (hist : ℕ → ℚ) (b : ℕ) (g h : ℚ) (t : ℕ) :
    accGH hist b g h t =
      hist t + (if 2 * b = t then g else 0) + (if 2 * b + 1 = t then h else 0) := by
  unfold accGH addAt
  split_ifs
  all_goals try (exfalso; omega)
  all_goals ring

lemma rowContrib_nil (g h : ℚ) (t : ℕ) : rowContrib [] g h t = 0 := by
  simp [rowContrib]

lemma rowContrib_cons (b : ℕ) (bins : List ℕ) (g h : ℚ) (t : ℕ) :
    rowContrib (b :: bins) g h t =
      (if 2 * b = t then g else 0) + (if 2 * b + 1 = t then h else 0) +
        rowContrib bins g h t := by
  unfold rowContrib
  simp only [List.countP_cons, beq_iff_eq]
  push_cast
  split_ifs
  all_goals try (exfalso; omega)
  all_goals ring

lemma histRowFold_apply (bins : List ℕ) (g h : ℚ) (hist : ℕ → ℚ) (t : ℕ) :
    histRowFold bins g h hist t = hist t + rowContrib bins g h t := by
  induction bins generalizing hist with
  | nil => simp [histRowFold, rowContrib_nil]
  | cons b bins ih =>
    simp only [histRowFold, List.foldl_cons] at ih ⊢
    rw [ih, accGH_apply, rowContrib_cons]
    ring

lemma ConstructHistogramLoop_apply (use_indices use_hessians : Bool)
    (s : MultiValSparseBin) (data_indices : List ℕ) (start stop : ℕ)
    (gradients hessians : List ℚ) (out : ℕ → ℚ) (t : ℕ) :
    ConstructHistogramLoop use_indices use_hessians s data_indices start stop
        gradients hessians out t =
      out t + histContrib use_indices use_hessians s data_indices start stop
        gradients hessians t := by
  unfold ConstructHistogramLoop histContrib
  generalize stop - start = n
  induction n generalizing start out with
  | zero => simp [List.range']
  | succ n ih =>
    rw [List.range'_succ]
    simp only [List.foldl_cons, List.map_cons, List.sum_cons]
    rw [ih (start + 1), histRowFold_apply]
    ring

lemma histContrib_split (use_indices use_hessians : Bool)
    (s : MultiValSparseBin) (data_indices : List ℕ) (start mid stop : ℕ)
    (hsm : start ≤ mid) (hms : mid ≤ stop)
    (gradients hessians : List ℚ) (t : ℕ) :
    histContrib use_indices use_hessians s data_indices start mid gradients
        hessians t +
      histContrib use_indices use_hessians s data_indices mid stop gradients
        hessians t =
    histContrib use_indices use_hessians s data_indices start stop gradients
        hessians t := by
  unfold histContrib
  have hsplit : List.range' start (stop - start) =
      List.range' start (mid - start) ++ List.range' mid (stop - mid) := by
    have h1 : stop - start = (mid - start) + (stop - mid) := by omega
    have h2 : start + (mid - start) = mid := by omega
    rw [h1, range'_split, h2]
  rw [hsplit, List.map_append, List.sum_append]

/-- Master accumulation lemma: every ConstructHistogramInner specialisation
adds to each histogram entry exactly the per-row, per-bin contributions of
the selected rows, regardless of the prefetch loop split. -/
lemma ConstructHistogramInner_apply (use_indices use_prefetch use_hessians : Bool)
    (pf_offset : ℕ) (s : MultiValSparseBin) (data_indices : List ℕ)
    (start stop : ℕ) (gradients hessians : List ℚ) (out : ℕ → ℚ) (t : ℕ) :
    ConstructHistogramInner use_indices use_prefetch use_hessians pf_offset s
        data_indices start stop gradients hessians out t =
      out t + histContrib use_indices use_hessians s data_indices start stop
        gradients hessians t := by
  unfold ConstructHistogramInner
  cases use_prefetch with
  | false => simp [ConstructHistogramLoop_apply]
  | true =>
    simp only [if_true]
    rw [ConstructHistogramLoop_apply, ConstructHistogramLoop_apply]
    rcases Nat.le_total (stop - pf_offset) start with hle | hlt
    · have h1 : stop - pf_offset - start = 0 := by omega
      have h2 : max start (stop - pf_offset) = start := by omega
      simp [h1, h2, histContrib, List.range']
    · have h2 : max start (stop - pf_offset) = stop - pf_offset := by omega
      rw [h2, add_assoc,
        histContrib_split use_indices use_hessians s data_indices start
          (stop - pf_offset) stop hlt (by omega) gradients hessians t]

lemma getD_set_self (l : List ℕ) (i v : ℕ) (h : i < l.length) :
    (l.set i v).getD i 0 = v := by
  induction l generalizing i with
  | nil => simp at h
  | cons a l ih =>
    cases i with
    | zero => simp
    | succ i =>
      simp only [List.set_cons_succ, List.getD_cons_succ]
      exact ih i (by simpa using h)

lemma getD_set_ne (l : List ℕ) (i j v : ℕ) (h : i ≠ j) :
    (l.set i v).getD j 0 = l.getD j 0 := by
  induction l generalizing i j with
  | nil => simp
  | cons a l ih =>
    cases i with
    | zero =>
      cases j with
      | zero => exact absurd rfl h
      | succ j => simp
    | succ i =>
      cases j with
      | zero => simp
      | succ j =>
        simp only [List.set_cons_succ, List.getD_cons_succ]
        exact ih i j (by omega)

lemma getD_replicate_zero (n i : ℕ) :
    (List.replicate n (0 : ℕ)).getD i 0 = 0 := by
  induction n generalizing i with
  | zero => simp
  | succ n ih =>
    cases i with
    | zero => simp [List.replicate_succ]
    | succ i => simp [List.replicate_succ, ih]

/-- Writing a list of sized slots: applying PushOneRow for a call list only
rewrites row_ptr_ through the per-call set at slot idx+1. -/
def rowPtrWrites (calls : List PushCall) (rp : List ℕ) : List ℕ :=
  calls.foldl (fun r c => r.set (c.idx + 1) c.size) rp

lemma rowPtrWrites_cons (c : PushCall) (calls : List PushCall) (rp : List ℕ) :
    rowPtrWrites (c :: calls) rp = rowPtrWrites calls (rp.set (c.idx + 1) c.size) :=
  rfl

lemma rowPtrWrites_length (calls : List PushCall) (rp : List ℕ) :
    (rowPtrWrites calls rp).length = rp.length := by
  induction calls generalizing rp with
  | nil => rfl
  | cons c calls ih => simp [rowPtrWrites] at ih ⊢; rw [ih, List.length_set]

lemma rowPtrWrites_untouched (calls : List PushCall) (rp : List ℕ) (j : ℕ)
    (h : ∀ c ∈ calls, c.idx + 1 ≠ j) :
    (rowPtrWrites calls rp).getD j 0 = rp.getD j 0 := by
  induction calls generalizing rp with
  | nil => rfl
  | cons c calls ih =>
    simp only [rowPtrWrites, List.foldl_cons] at ih ⊢
    rw [ih _ (fun c hc => h c (List.mem_cons_of_mem _ hc)),
      getD_set_ne _ _ _ _ (h c (List.mem_cons_self _ _))]

lemma rowPtrWrites_member (calls : List PushCall) (rp : List ℕ) (c : PushCall)
    (hc : c ∈ calls) (hnd : (calls.map PushCall.idx).Nodup)
    (hlen : c.idx + 1 < rp.length) :
    (rowPtrWrites calls rp).getD (c.idx + 1) 0 = c.size := by
  induction calls generalizing rp with
  | nil => simp at hc
  | cons a calls ih =>
    rw [rowPtrWrites_cons]
    rcases List.mem_cons.mp hc with rfl | hc2
    · have hnotin : ∀ d ∈ calls, d.idx + 1 ≠ c.idx + 1 := by
        intro d hd heq
        have : d.idx = c.idx := by omega
        have hmem : c.idx ∈ calls.map PushCall.idx :=
          this ▸ List.mem_map_of_mem PushCall.idx hd
        simp only [List.map_cons, List.nodup_cons] at hnd
        exact hnd.1 hmem
      rw [rowPtrWrites_untouched calls _ _ hnotin,
        getD_set_self _ _ _ hlen]
    · have hnd2 : (calls.map PushCall.idx).Nodup := by
        simp only [List.map_cons, List.nodup_cons] at hnd
        exact hnd.2
      exact ih _ hc2 hnd2 (by simpa using hlen)

lemma MoveDataCumSum_length (n : ℕ) (rp : List ℕ) :
    (MoveDataCumSum n rp).length = rp.length := by
  unfold MoveDataCumSum
  induction n with
  | zero => rfl
  | succ n ih =>
    rw [List.range_succ, List.foldl_append]
    simp only [List.foldl_cons, List.foldl_nil]
    rw [List.length_set]
    exact ih

lemma MoveDataCumSum_high (n : ℕ) (rp : List ℕ) (j : ℕ) (h : n < j) :
    (MoveDataCumSum n rp).getD j 0 = rp.getD j 0 := by
  unfold MoveDataCumSum
  induction n with
  | zero => rfl
  | succ n ih =>
    rw [List.range_succ, List.foldl_append]
    simp only [List.foldl_cons, List.foldl_nil]
    rw [getD_set_ne _ _ _ _ (by omega), ih (by omega)]

lemma MoveDataCumSum_getD (n : ℕ) (rp : List ℕ) (hlen : n < rp.length) :
    ∀ i ≤ n, (MoveDataCumSum n rp).getD i 0 =
      ((List.range (i + 1)).map (fun j => rp.getD j 0)).sum := by
  induction n with
  | zero =>
    intro i hi
    interval_cases i
    simp [MoveDataCumSum, List.range_succ]
  | succ n ih =>
    intro i hi
    have hstep : MoveDataCumSum (n + 1) rp =
        (MoveDataCumSum n rp).set (n + 1)
          ((MoveDataCumSum n rp).getD (n + 1) 0 +
            (MoveDataCumSum n rp).getD n 0) := by
      unfold MoveDataCumSum
      rw [List.range_succ, List.foldl_append]
      simp
    rcases Nat.lt_or_ge i (n + 1) with hlt | hge
    · rw [hstep, getD_set_ne _ _ _ _ (by omega)]
      exact ih (by omega) i (by omega)
    · have hi2 : i = n + 1 := by omega
      subst hi2
      rw [hstep, getD_set_self _ _ _ (by rw [MoveDataCumSum_length]; omega)]
      rw [MoveDataCumSum_high n rp (n + 1) (by omega),
        ih (by omega) n (by omega)]
      rw [List.range_succ (n := n + 1), List.map_append, List.sum_append]
      simp [Nat.add_comm]

lemma PushOneRow_row_ptr (tid idx : ℕ) (values : List ℕ) (size : ℕ)
    (s : MultiValSparseBin) :
    (PushOneRow tid idx values size s).row_ptr_ = s.row_ptr_.set (idx + 1) size := by
  unfold PushOneRow
  by_cases h : tid = 0 <;> simp [h]

lemma PushOneRow_num_data (tid idx : ℕ) (values : List ℕ) (size : ℕ)
    (s : MultiValSparseBin) :
    (PushOneRow tid idx values size s).num_data_ = s.num_data_ := by
  unfold PushOneRow
  by_cases h : tid = 0 <;> simp [h]

lemma IngestAll_row_ptr (s : MultiValSparseBin) (calls : List PushCall) :
    (IngestAll s calls).row_ptr_ = rowPtrWrites calls s.row_ptr_ := by
  induction calls generalizing s with
  | nil => rfl
  | cons c calls ih =>
    simp only [IngestAll, List.foldl_cons] at ih ⊢
    rw [ih, rowPtrWrites_cons, PushOneRow_row_ptr]

lemma IngestAll_num_data (s : MultiValSparseBin) (calls : List PushCall) :
    (IngestAll s calls).num_data_ = s.num_data_ := by
  induction calls generalizing s with
  | nil => rfl
  | cons c calls ih =>
    simp only [IngestAll, List.foldl_cons] at ih ⊢
    rw [ih, PushOneRow_num_data]

lemma MoveData_row_ptr (use_ext_size : Bool) (sizes : List ℕ)
    (s : MultiValSparseBin) :
    (MoveData use_ext_size sizes s).row_ptr_ =
      MoveDataCumSum s.num_data_ s.row_ptr_ := by
  unfold MoveData
  split <;> rfl

lemma MoveData_num_data (use_ext_size : Bool) (sizes : List ℕ)
    (s : MultiValSparseBin) :
    (MoveData use_ext_size sizes s).num_data_ = s.num_data_ := by
  unfold MoveData
  split <;> rfl

lemma FinishLoad_row_ptr (s : MultiValSparseBin) :
    (FinishLoad s).row_ptr_ = MoveDataCumSum s.num_data_ s.row_ptr_ := by
  unfold FinishLoad
  rw [MoveData_row_ptr]

lemma FinishLoad_num_data (s : MultiValSparseBin) :
    (FinishLoad s).num_data_ = s.num_data_ := by
  unfold FinishLoad
  rw [MoveData_num_data]

lemma range_map_sum_mono (f : ℕ → ℕ) (i j : ℕ) (h : i ≤ j) :
    ((List.range i).map f).sum ≤ ((List.range j).map f).sum := by
  induction j with
  | zero =>
    have : i = 0 := by omega
    subst this
    exact le_refl _
  | succ j ih =>
    rcases Nat.lt_or_ge i (j + 1) with hlt | hge
    · refine le_trans (ih (by omega)) ?_
      rw [List.range_succ, List.map_append, List.sum_append]
      exact Nat.le_add_right _ _
    · have : i = j + 1 := by omega
      subst this
      exact le_refl _

/-- Claim C2.  For all valid (num_rows, num_bin), after every row id in
[0, num_rows) has been ingested exactly once via PushOneRow — any order, any
worker assignment — and the structure finalized via FinishLoad, the RowIndex
array row_ptr_ satisfies: RowIndex[0] = 0, RowIndex is monotonically
non-decreasing, RowIndex[i+1] - RowIndex[i] equals row i's ingested entry
count (stated additively), and RowIndex[num_rows] equals the total number of
ingested bin values. -/
theorem claim_C2_row_index_layout (num_data num_bin num_threads : ℕ) (est : ℚ)
    (calls : List PushCall)
    (hperm : (calls.map PushCall.idx).Perm (List.range num_data)) :
    (FinishLoad (IngestAll (mkMultiValSparseBin num_data num_bin est
        num_threads) calls)).row_ptr_.getD 0 0 = 0 ∧
    (∀ i j, i ≤ j → j ≤ num_data →
      (FinishLoad (IngestAll (mkMultiValSparseBin num_data num_bin est
          num_threads) calls)).row_ptr_.getD i 0 ≤
        (FinishLoad (IngestAll (mkMultiValSparseBin num_data num_bin est
          num_threads) calls)).row_ptr_.getD j 0) ∧
    (∀ c ∈ calls,
      (FinishLoad (IngestAll (mkMultiValSparseBin num_data num_bin est
          num_threads) calls)).row_ptr_.getD (c.idx + 1) 0 =
        (FinishLoad (IngestAll (mkMultiValSparseBin num_data num_bin est
          num_threads) calls)).row_ptr_.getD c.idx 0 + c.size) ∧
    (FinishLoad (IngestAll (mkMultiValSparseBin num_data num_bin est
        num_threads) calls)).row_ptr_.getD num_data 0 =
      (calls.map PushCall.size).sum := by
  set base := mkMultiValSparseBin num_data num_bin est num_threads with hbase
  have hnd : (calls.map PushCall.idx).Nodup :=
    hperm.nodup_iff.mpr (List.nodup_range num_data)
  have hidx : ∀ c ∈ calls, c.idx < num_data := by
    intro c hc
    have h1 : c.idx ∈ calls.map PushCall.idx := List.mem_map_of_mem _ hc
    have h2 : c.idx ∈ List.range num_data := hperm.mem_iff.mp h1
    exact List.mem_range.mp h2
  have hbrp : base.row_ptr_ = List.replicate (num_data + 1) 0 := rfl
  have hrpw_len : (rowPtrWrites calls base.row_ptr_).length = num_data + 1 := by
    rw [rowPtrWrites_length, hbrp, List.length_replicate]
  have hrp : (FinishLoad (IngestAll base calls)).row_ptr_ =
      MoveDataCumSum num_data (rowPtrWrites calls base.row_ptr_) := by
    rw [FinishLoad_row_ptr, IngestAll_row_ptr, IngestAll_num_data]
    rfl
  have hL0 : (rowPtrWrites calls base.row_ptr_).getD 0 0 = 0 := by
    rw [rowPtrWrites_untouched _ _ _ (fun c _ => by omega), hbrp,
      getD_replicate_zero]
  have hchar : ∀ i ≤ num_data,
      (FinishLoad (IngestAll base calls)).row_ptr_.getD i 0 =
        ((List.range (i + 1)).map
          (fun j => (rowPtrWrites calls base.row_ptr_).getD j 0)).sum := by
    intro i hi
    rw [hrp]
    exact MoveDataCumSum_getD num_data _ (by omega) i hi
  have hmember : ∀ c ∈ calls,
      (rowPtrWrites calls base.row_ptr_).getD (c.idx + 1) 0 = c.size := by
    intro c hc
    refine rowPtrWrites_member calls _ c hc hnd ?_
    rw [hbrp, List.length_replicate]
    have := hidx c hc
    omega
  refine ⟨?_, ?_, ?_, ?_⟩
  · rw [hchar 0 (by omega)]
    have h1 : List.range 1 = [0] := rfl
    rw [h1]
    simp only [List.map_cons, List.map_nil, List.sum_cons, List.sum_nil,
      Nat.add_zero]
    exact hL0
  · intro i j hij hj
    rw [hchar i (by omega), hchar j hj]
    exact range_map_sum_mono _ _ _ (by omega)
  · intro c hc
    have hci : c.idx < num_data := hidx c hc
    rw [hchar (c.idx + 1) (by omega), hchar c.idx (by omega)]
    rw [List.range_succ (n := c.idx + 1), List.map_append, List.sum_append]
    simp only [List.map_cons, List.map_nil, List.sum_cons, List.sum_nil,
      Nat.add_zero]
    rw [hmember c hc]
  · rw [hchar num_data (le_refl _)]
    have hshift : List.range (num_data + 1) =
        0 :: (List.range num_data).map Nat.succ := List.range_succ_eq_map num_data
    rw [hshift]
    simp only [List.map_cons, List.sum_cons, List.map_map]
    rw [hL0, Nat.zero_add]
    have hsz : calls.map PushCall.size =
        calls.map (fun c => (rowPtrWrites calls base.row_ptr_).getD (c.idx + 1) 0) := by
      apply List.map_congr_left
      intro c hc
      exact (hmember c hc).symm
    have hcomp : calls.map
        (fun c => (rowPtrWrites calls base.row_ptr_).getD (c.idx + 1) 0) =
        (calls.map PushCall.idx).map
          (fun j => (rowPtrWrites calls base.row_ptr_).getD (j + 1) 0) := by
      rw [List.map_map]
      rfl
    have hpsum := (hperm.map
      (fun j => (rowPtrWrites calls base.row_ptr_).getD (j + 1) 0)).sum_eq
    rw [hsz, hcomp, hpsum]
    refine congrArg List.sum (List.map_congr_left ?_)
    intro j _
    rfl

/-- Witness for claim C2: two rows ingested out of order by two workers. -/
theorem claim_C2_row_index_layout_witness :
    (([⟨0, 1, [4, 4], 2⟩, ⟨1, 0, [7], 1⟩] : List PushCall).map
        PushCall.idx).Perm (List.range 2) ∧
    (FinishLoad (IngestAll (mkMultiValSparseBin 2 8 1 2)
        [⟨0, 1, [4, 4], 2⟩, ⟨1, 0, [7], 1⟩])).row_ptr_.getD 2 0 =
      (([⟨0, 1, [4, 4], 2⟩, ⟨1, 0, [7], 1⟩] : List PushCall).map
        PushCall.size).sum :=
  ⟨by decide,
    (claim_C2_row_index_layout 2 8 2 1 [⟨0, 1, [4, 4], 2⟩, ⟨1, 0, [7], 1⟩]
      (by decide)).2.2.2⟩

/-- The worked example of the spec: rows with bins [3,7], [], [1], num_bin=8,
built through the real ingestion and finalize path with one worker. -/
def exampleBin : MultiValSparseBin :=
  FinishLoad (IngestAll (mkMultiValSparseBin 3 8 1 1)
    [⟨0, 0, [3, 7], 2⟩, ⟨0, 1, [], 0⟩, ⟨0, 2, [1], 1⟩])

lemma exampleBin_row_ptr : exampleBin.row_ptr_ = [0, 2, 2, 3] := by decide

lemma exampleBin_data : exampleBin.data_ = [3, 7, 1] := by decide

lemma exampleHist_eq :
    ConstructHistogramHess exampleBin 0 3 [1, 2, 3] [1/2, 1/2, 1/2]
        (fun _ => 0) =
      addAt (addAt (addAt (addAt (addAt (addAt (fun _ => 0) 6 1) 7 (1/2))
        14 1) 15 (1/2)) 2 3) 3 (1/2) := by
  rfl

/-- Claim C1.  Every Accumulate specialisation adds, for each active row and
each bin value b stored in that row's slice, gradients[row] to
out_histogram[2b] and hessians[row] (or 1.0 when hessians are absent) to
out_histogram[2b+1]; in particular, from a zeroed histogram, the rows [3,7],
[], [1] with num_bin = 8, gradients [1,2,3], hessians [1/2,1/2,1/2] and the
full range [0,3) yield histogram entries 6 -> 1, 7 -> 1/2, 14 -> 1,
15 -> 1/2, 2 -> 3, 3 -> 1/2 and zero everywhere else. -/
theorem claim_C1_accumulate_semantics :
    (∀ (use_indices use_prefetch use_hessians : Bool) (pf_offset : ℕ)
      (s : MultiValSparseBin) (data_indices : List ℕ) (start stop : ℕ)
      (gradients hessians : List ℚ) (out : ℕ → ℚ) (t : ℕ),
      ConstructHistogramInner use_indices use_prefetch use_hessians pf_offset
          s data_indices start stop gradients hessians out t =
        out t + histContrib use_indices use_hessians s data_indices start stop
          gradients hessians t) ∧
    ConstructHistogramHess exampleBin 0 3 [1, 2, 3] [1/2, 1/2, 1/2]
        (fun _ => 0) 6 = 1 ∧
    ConstructHistogramHess exampleBin 0 3 [1, 2, 3] [1/2, 1/2, 1/2]
        (fun _ => 0) 7 = 1/2 ∧
    ConstructHistogramHess exampleBin 0 3 [1, 2, 3] [1/2, 1/2, 1/2]
        (fun _ => 0) 14 = 1 ∧
    ConstructHistogramHess exampleBin 0 3 [1, 2, 3] [1/2, 1/2, 1/2]
        (fun _ => 0) 15 = 1/2 ∧
    ConstructHistogramHess exampleBin 0 3 [1, 2, 3] [1/2, 1/2, 1/2]
        (fun _ => 0) 2 = 3 ∧
    ConstructHistogramHess exampleBin 0 3 [1, 2, 3] [1/2, 1/2, 1/2]
        (fun _ => 0) 3 = 1/2 ∧
    (∀ t, t ≠ 2 → t ≠ 3 → t ≠ 6 → t ≠ 7 → t ≠ 14 → t ≠ 15 →
      ConstructHistogramHess exampleBin 0 3 [1, 2, 3] [1/2, 1/2, 1/2]
        (fun _ => 0) t = 0) := by
  refine ⟨ConstructHistogramInner_apply, ?_, ?_, ?_, ?_, ?_, ?_, ?_⟩
  · rw [exampleHist_eq]; norm_num [addAt]
  · rw [exampleHist_eq]; norm_num [addAt]
  · rw [exampleHist_eq]; norm_num [addAt]
  · rw [exampleHist_eq]; norm_num [addAt]
  · rw [exampleHist_eq]; norm_num [addAt]
  · rw [exampleHist_eq]; norm_num [addAt]
  · intro t h2 h3 h6 h7 h14 h15
    rw [exampleHist_eq]
    simp [addAt, h2, h3, h6, h7, h14, h15]

/-- Witness for claim C1: entry 5 of the worked example is untouched. -/
theorem claim_C1_accumulate_semantics_witness :
    ConstructHistogramHess exampleBin 0 3 [1, 2, 3] [1/2, 1/2, 1/2]
      (fun _ => 0) 5 = 0 :=
  claim_C1_accumulate_semantics.2.2.2.2.2.2.2 5 (by norm_num) (by norm_num)
    (by norm_num) (by norm_num) (by norm_num) (by norm_num)

/-- Claim C5.  Splitting one Accumulate call at any m with start <= m <= stop
into two calls over [start,m) and [m,stop) into independently zeroed buffers
and summing entrywise gives the same histogram as the single call over
[start,stop), for every specialisation and selector, over exact arithmetic. -/
theorem claim_C5_range_additivity (use_indices use_prefetch use_hessians : Bool)
    (pf_offset : ℕ) (s : MultiValSparseBin) (data_indices : List ℕ)
    (start mid stop : ℕ) (h1 : start ≤ mid) (h2 : mid ≤ stop)
    (gradients hessians : List ℚ) (t : ℕ) :
    ConstructHistogramInner use_indices use_prefetch use_hessians pf_offset s
        data_indices start mid gradients hessians (fun _ => 0) t +
      ConstructHistogramInner use_indices use_prefetch use_hessians pf_offset s
        data_indices mid stop gradients hessians (fun _ => 0) t =
    ConstructHistogramInner use_indices use_prefetch use_hessians pf_offset s
        data_indices start stop gradients hessians (fun _ => 0) t := by
  rw [ConstructHistogramInner_apply, ConstructHistogramInner_apply,
    ConstructHistogramInner_apply]
  simpa using histContrib_split use_indices use_hessians s data_indices start
    mid stop h1 h2 gradients hessians t

/-- Witness for claim C5: the worked example split at row 1, entry 2. -/
theorem claim_C5_range_additivity_witness :
    ConstructHistogramInner false false true 0 exampleBin [] 0 1 [1, 2, 3]
        [1/2, 1/2, 1/2] (fun _ => 0) 2 +
      ConstructHistogramInner false false true 0 exampleBin [] 1 3 [1, 2, 3]
        [1/2, 1/2, 1/2] (fun _ => 0) 2 =
    ConstructHistogramInner false false true 0 exampleBin [] 0 3 [1, 2, 3]
        [1/2, 1/2, 1/2] (fun _ => 0) 2 :=
  claim_C5_range_additivity false false true 0 exampleBin [] 0 1 3
    (by omega) (by omega) [1, 2, 3] [1/2, 1/2, 1/2] 2

lemma rowContrib_not_mem_even (bins : List ℕ) (g h : ℚ) (b : ℕ)
    (hb : b ∉ bins) : rowContrib bins g h (2 * b) = 0 := by
  unfold rowContrib
  have h1 : bins.countP (fun x => 2 * x == 2 * b) = 0 := by
    rw [List.countP_eq_zero]
    intro x hx
    simp only [beq_iff_eq]
    intro heq
    have : x = b := by omega
    exact hb (this ▸ hx)
  have h2 : bins.countP (fun x => 2 * x + 1 == 2 * b) = 0 := by
    rw [List.countP_eq_zero]
    intro x hx
    simp only [beq_iff_eq]
    omega
  rw [h1, h2]
  norm_num

lemma rowContrib_not_mem_odd (bins : List ℕ) (g h : ℚ) (b : ℕ)
    (hb : b ∉ bins) : rowContrib bins g h (2 * b + 1) = 0 := by
  unfold rowContrib
  have h1 : bins.countP (fun x => 2 * x == 2 * b + 1) = 0 := by
    rw [List.countP_eq_zero]
    intro x hx
    simp only [beq_iff_eq]
    omega
  have h2 : bins.countP (fun x => 2 * x + 1 == 2 * b + 1) = 0 := by
    rw [List.countP_eq_zero]
    intro x hx
    simp only [beq_iff_eq]
    intro heq
    have : x = b := by omega
    exact hb (this ▸ hx)
  rw [h1, h2]
  norm_num

/-- Claim C6.  Accumulate never zeroes or overwrites out_histogram: each
entry's final value is its value before the call plus the contributions
accumulated during the call, and every entry 2b or 2b+1 whose bin b occurs in
no processed row's slice is left unchanged. -/
theorem claim_C6_no_overwrite (use_indices use_prefetch use_hessians : Bool)
    (pf_offset : ℕ) (s : MultiValSparseBin) (data_indices : List ℕ)
    (start stop : ℕ) (gradients hessians : List ℚ) (out : ℕ → ℚ) :
    (∀ t, ConstructHistogramInner use_indices use_prefetch use_hessians
        pf_offset s data_indices start stop gradients hessians out t =
      out t + histContrib use_indices use_hessians s data_indices start stop
        gradients hessians t) ∧
    (∀ b, (∀ i, start ≤ i → i < stop →
        b ∉ rowValues s (activeIndex use_indices data_indices i)) →
      ConstructHistogramInner use_indices use_prefetch use_hessians pf_offset
          s data_indices start stop gradients hessians out (2 * b) =
        out (2 * b) ∧
      ConstructHistogramInner use_indices use_prefetch use_hessians pf_offset
          s data_indices start stop gradients hessians out (2 * b + 1) =
        out (2 * b + 1)) := by
  refine ⟨fun t => ConstructHistogramInner_apply _ _ _ _ _ _ _ _ _ _ _ _, ?_⟩
  intro b hb
  have key : ∀ t, (∀ i, start ≤ i → i < stop →
      rowContrib (rowValues s (activeIndex use_indices data_indices i))
        (gradients.getD (activeIndex use_indices data_indices i) 0)
        (if use_hessians then
          hessians.getD (activeIndex use_indices data_indices i) 0
         else 1) t = 0) →
      histContrib use_indices use_hessians s data_indices start stop gradients
        hessians t = 0 := by
    intro t hall
    unfold histContrib
    apply List.sum_eq_zero
    intro x hx
    rcases List.mem_map.mp hx with ⟨i, hi, rfl⟩
    have hmem := List.mem_range'_1.mp hi
    exact hall i hmem.1 (by omega)
  constructor
  · rw [ConstructHistogramInner_apply,
      key (2 * b) (fun i hi1 hi2 =>
        rowContrib_not_mem_even _ _ _ b (hb i hi1 hi2)), add_zero]
  · rw [ConstructHistogramInner_apply,
      key (2 * b + 1) (fun i hi1 hi2 =>
        rowContrib_not_mem_odd _ _ _ b (hb i hi1 hi2)), add_zero]

/-- Witness for claim C6: bin 4 occurs in no row of the worked example, so
entries 8 and 9 keep their prior values. -/
theorem claim_C6_no_overwrite_witness :
    ConstructHistogramInner false false true 0 exampleBin [] 0 3 [1, 2, 3]
        [1/2, 1/2, 1/2] (fun _ => 7) (2 * 4) = 7 ∧
    ConstructHistogramInner false false true 0 exampleBin [] 0 3 [1, 2, 3]
        [1/2, 1/2, 1/2] (fun _ => 7) (2 * 4 + 1) = 7 :=
  (claim_C6_no_overwrite false false true 0 exampleBin [] 0 3 [1, 2, 3]
    [1/2, 1/2, 1/2] (fun _ => 7)).2 4
    (by intro i h1 h2; interval_cases i <;> decide)

/-- Claim C7.  The four public ConstructHistogram signatures differ only in
selector and hessian handling: calling an indexed variant with
data_indices[i] = i on [start,stop) computes the same histogram as the
corresponding identity variant, the prefetching on the indexed path having no
effect on the sums. -/
theorem claim_C7_selector_equivalence (pf_offset : ℕ)
    (s : MultiValSparseBin) (data_indices : List ℕ) (start stop : ℕ)
    (gradients hessians : List ℚ) (out : ℕ → ℚ)
    (hid : ∀ i, start ≤ i → i < stop → data_indices.getD i 0 = i) :
    (∀ t, ConstructHistogramIdxHess pf_offset s data_indices start stop
        gradients hessians out t =
      ConstructHistogramHess s start stop gradients hessians out t) ∧
    (∀ t, ConstructHistogramIdxNoHess pf_offset s data_indices start stop
        gradients out t =
      ConstructHistogramNoHess s start stop gradients out t) := by
  have hcontrib : ∀ (use_hessians : Bool) (hs : List ℚ) (t : ℕ),
      histContrib true use_hessians s data_indices start stop gradients hs t =
      histContrib false use_hessians s [] start stop gradients hs t := by
    intro use_hessians hs t
    unfold histContrib
    refine congrArg List.sum (List.map_congr_left ?_)
    intro i hi
    have hmem := List.mem_range'_1.mp hi
    have hidx : activeIndex true data_indices i = activeIndex false [] i := by
      unfold activeIndex
      simp only [if_true, if_false]
      exact hid i hmem.1 (by omega)
    rw [hidx]
  constructor
  · intro t
    unfold ConstructHistogramIdxHess ConstructHistogramHess
    rw [ConstructHistogramInner_apply, ConstructHistogramInner_apply,
      hcontrib]
  · intro t
    unfold ConstructHistogramIdxNoHess ConstructHistogramNoHess
    rw [ConstructHistogramInner_apply, ConstructHistogramInner_apply,
      hcontrib]

/-- Witness for claim C7: identity index list [0,1,2] on the worked example,
entry 6. -/
theorem claim_C7_selector_equivalence_witness :
    ConstructHistogramIdxHess 8 exampleBin [0, 1, 2] 0 3 [1, 2, 3]
        [1/2, 1/2, 1/2] (fun _ => 0) 6 =
      ConstructHistogramHess exampleBin 0 3 [1, 2, 3] [1/2, 1/2, 1/2]
        (fun _ => 0) 6 :=
  (claim_C7_selector_equivalence 8 exampleBin [0, 1, 2] 0 3 [1, 2, 3]
    [1/2, 1/2, 1/2] (fun _ => 0)
    (by intro i h1 h2; interval_cases i <;> rfl)).1 6

lemma foldl_CopySubsetStep_estimate (other : MultiValSparseBin)
    (used_indices : List ℕ) (l : List ℕ) (st : MultiValSparseBin) :
    (l.foldl (CopySubsetStep other used_indices) st).estimate_element_per_row_ =
      st.estimate_element_per_row_ := by
  induction l generalizing st with
  | nil => rfl
  | cons i l ih =>
    simp only [List.foldl_cons]
    rw [ih]
    rfl

lemma CopySubset_estimate (s other : MultiValSparseBin) (used_indices : List ℕ)
    (num_used_indices : ℕ) :
    (CopySubset s other used_indices num_used_indices).estimate_element_per_row_ =
      s.estimate_element_per_row_ := by
  unfold CopySubset
  rw [foldl_CopySubsetStep_estimate]

/-- Source structure for the CopySubset counterexample: one finalized row
holding the single bin value 4. -/
def subsetSrc : MultiValSparseBin :=
  ⟨1, 8, some 1, [4], [0, 1], []⟩

/-- Destination for the CopySubset counterexample, with a stale density hint
of 5 elements per row. -/
def subsetDst : MultiValSparseBin :=
  ⟨1, 8, some 5, [], [0, 0], []⟩

/-- Counterexample to claim C8: after CopySubset copies exactly 1 value into
a 1-row destination, the density hint is not 1/1 — it still holds its prior
value 5. -/
theorem claim_C8_counterexample :
    (CopySubset subsetDst subsetSrc [0] 1).row_ptr_.getD 1 0 = 1 ∧
    (CopySubset subsetDst subsetSrc [0] 1).num_data_ = 1 ∧
    (CopySubset subsetDst subsetSrc [0] 1).estimate_element_per_row_ ≠
      some ((1 : ℚ) / (1 : ℚ)) ∧
    (CopySubset subsetDst subsetSrc [0] 1).estimate_element_per_row_ =
      subsetDst.estimate_element_per_row_ := by
  refine ⟨by decide, by decide, ?_, CopySubset_estimate _ _ _ _⟩
  rw [CopySubset_estimate]
  show some (5 : ℚ) ≠ some ((1 : ℚ) / (1 : ℚ))
  norm_num

/-- Claim C8, amended.  CopySubset never touches estimate_element_per_row_:
the density hint retains its previous value (it is only read, to size the
destination reserve), not re-derived from the copied data. -/
theorem claim_C8_estimate_retained (s other : MultiValSparseBin)
    (used_indices : List ℕ) (num_used_indices : ℕ) :
    (CopySubset s other used_indices num_used_indices).estimate_element_per_row_ =
      s.estimate_element_per_row_ :=
  CopySubset_estimate s other used_indices num_used_indices

lemma getD_replicate {α : Type} (n i : ℕ) (x : α) :
    (List.replicate n x).getD i x = x := by
  induction n generalizing i with
  | zero => simp
  | succ n ih =>
    cases i with
    | zero => simp [List.replicate_succ]
    | succ i => simp [List.replicate_succ, List.getD_cons_succ, ih]

lemma copyIntoAt_nil (src : List ℕ) (cnt off : ℕ) (hsrc : src = []) :
    copyIntoAt src cnt [] off = [] := by
  subst hsrc
  simp [copyIntoAt]

/-- Counterexample to claim C9: finalizing a zero-row structure does reach
the density division with divisor num_data_ = 0; the resulting double is
NaN (modelled none), so the hint recomputation is a division by zero. -/
theorem claim_C9_counterexample :
    (FinishLoad (mkMultiValSparseBin 0 8 1 2)).estimate_element_per_row_ =
      none ∧
    (FinishLoad (mkMultiValSparseBin 0 8 1 2)).num_data_ = 0 := by
  constructor <;> decide

/-- Claim C9, amended.  FinishLoad on a structure constructed with zero rows
and no ingested values yields a validly shaped empty structure — RowIndex =
[0] and an empty consolidated store — and the density recomputation
RowIndex[0] / 0 is an IEEE double division with zero divisor producing NaN
(modelled none); the division by zero does occur but only poisons the hint,
never the shape. -/
theorem claim_C9_degenerate_finalize (num_bin num_threads : ℕ) (est : ℚ) :
    (FinishLoad (mkMultiValSparseBin 0 num_bin est num_threads)).row_ptr_ =
      [0] ∧
    (FinishLoad (mkMultiValSparseBin 0 num_bin est num_threads)).data_ = [] ∧
    (FinishLoad (mkMultiValSparseBin 0 num_bin est
      num_threads)).estimate_element_per_row_ = none := by
  refine ⟨?_, ?_, ?_⟩
  · rw [FinishLoad_row_ptr]
    rfl
  · show (MoveData false [] (mkMultiValSparseBin 0 num_bin est
      num_threads)).data_ = []
    unfold MoveData mkMultiValSparseBin
    split
    · rfl
    · simp only
      have hfold : ∀ (l : List ℕ) (d : List ℕ), d = [] →
          (List.foldl (fun d tid =>
            copyIntoAt ((List.replicate (num_threads - 1)
                ([] : List ℕ)).getD tid [])
              ((List.replicate (num_threads - 1) ([] : List ℕ)).getD tid
                []).length d
              ((MoveDataOffsets (List.length ([] : List ℕ))
                ((List.range ((List.replicate (num_threads - 1)
                  ([] : List ℕ)).length - 1)).map
                  (fun tid => ((List.replicate (num_threads - 1)
                    ([] : List ℕ)).getD tid []).length))).getD tid 0)) d l) =
          [] := by
        intro l
        induction l with
        | nil => intro d hd; exact hd
        | cons a l ihl =>
          intro d hd
          simp only [List.foldl_cons]
          apply ihl
          rw [hd]
          exact copyIntoAt_nil _ _ _ (getD_replicate _ _ _)
      apply hfold
      show listResize [] _ = []
      simp only [listResize, List.take_nil, List.nil_append, List.length_nil,
        Nat.sub_zero]
      show List.replicate ((MoveDataCumSum 0 [0]).getD 0 0) (0 : ℕ) = []
      rfl
  · show FinishLoadDensity (MoveData false []
        (mkMultiValSparseBin 0 num_bin est num_threads)).num_data_ _ = none
    rw [MoveData_num_data]
    unfold FinishLoadDensity
    simp [mkMultiValSparseBin]

/-- Failing-input evaluation for claim C10: with any thread count and fewer
than 1024 rows, n_block = min(num_threads, num_data / 1024) is 0, so
block_size = (num_data + n_block - 1) / n_block divides by zero and the block
loop processes no rows. -/
theorem claim_C10_zero_block_partition (num_threads num_data : ℕ)
    (h : num_data < 1024) :
    CopySubFeatureNBlock num_threads num_data = 0 := by
  unfold CopySubFeatureNBlock
  have : num_data / 1024 = 0 := Nat.div_eq_of_lt h
  simp [this]

/-- Witness for claim C10: one row, four workers. -/
theorem claim_C10_zero_block_partition_witness :
    CopySubFeatureNBlock 4 1 = 0 :=
  claim_C10_zero_block_partition 4 1 (by omega)

/-- Source structure for the CopySubFeature failing input: one finalized row
holding bin value 5, below the single upper bound 8, num_bin = 8. -/
def subFeatureSrc : MultiValSparseBin :=
  ⟨1, 8, some 1, [5], [0, 1], []⟩

/-- Destination for the CopySubFeature failing input, as CreateLike +
ReSizeForSubFeature would shape it with two workers. -/
def subFeatureDst : MultiValSparseBin :=
  ⟨1, 8, some 1, [], [0, 0], [[]]⟩

/-- Failing-input evaluation for claim C3: the full-range rebin copy
(lower=0, upper=num_bin=8, delta=0) of a finalized 1-row source should
reproduce the source row [5], but n_block = 0 (rows < 1024) makes the block
loop process no rows — after an integer division by zero computing
block_size — leaving every destination row empty. -/
theorem claim_C3_small_source_dropped :
    Finalized subFeatureSrc ∧
    rowValues subFeatureSrc 0 = [5] ∧
    CopySubFeatureNBlock 2 subFeatureDst.num_data_ = 0 ∧
    rowValues (CopySubFeature subFeatureDst subFeatureSrc [0] [8] [0] 2) 0 =
      [] ∧
    rowValues (CopySubFeature subFeatureDst subFeatureSrc [0] [8] [0] 2) 0 ≠
      rowValues subFeatureSrc 0 := by
  refine ⟨by decide, by decide, by decide, by decide, by decide⟩

lemma Finalized_rowPtr_mono (s : MultiValSparseBin) (hf : Finalized s) :
    ∀ i j, i ≤ j → j ≤ s.num_data_ → RowPtr s i ≤ RowPtr s j := by
  intro i j hij hj
  induction j with
  | zero =>
    have : i = 0 := by omega
    subst this
    exact le_refl _
  | succ j ihj =>
    rcases Nat.lt_or_ge i (j + 1) with hlt | hge
    · exact le_trans (ihj (by omega) (by omega)) (hf.2.2.1 j (by omega))
    · have : i = j + 1 := by omega
      subst this
      exact le_refl _

lemma Finalized_rowValues_length (s : MultiValSparseBin) (hf : Finalized s)
    (i : ℕ) (hi : i < s.num_data_) :
    (rowValues s i).length = RowPtr s (i + 1) - RowPtr s i := by
  unfold rowValues
  rw [List.length_take, List.length_drop]
  have h1 : RowPtr s (i + 1) ≤ RowPtr s s.num_data_ :=
    Finalized_rowPtr_mono s hf (i + 1) s.num_data_ (by omega) (le_refl _)
  have h2 : s.data_.length = RowPtr s s.num_data_ := hf.2.2.2
  omega

lemma Finalized_rowPtr_telescope (s : MultiValSparseBin) (hf : Finalized s) :
    ∀ i, i ≤ s.num_data_ → RowPtr s i =
      ((List.range i).map (fun j => RowPtr s (j + 1) - RowPtr s j)).sum := by
  intro i hi
  induction i with
  | zero => exact hf.2.1
  | succ i ihi =>
    rw [List.range_succ, List.map_append, List.sum_append, ← ihi (by omega)]
    simp only [List.map_cons, List.map_nil, List.sum_cons, List.sum_nil,
      Nat.add_zero]
    have := hf.2.2.1 i (by omega)
    simp only [RowPtr]
    omega

lemma listResize_length (l : List ℕ) (k : ℕ) : (listResize l k).length = k := by
  unfold listResize
  rw [List.length_append, List.length_take, List.length_replicate]
  omega

lemma listResize_getD_zero (l : List ℕ) (k : ℕ) :
    (listResize l (k + 1)).getD 0 0 = l.getD 0 0 := by
  cases l with
  | nil => simp [listResize, getD_replicate_zero]
  | cons a t => simp [listResize, List.take_cons]

lemma getD_map_range (f : ℕ → ℕ) (n i : ℕ) (h : i < n) (d : ℕ) :
    ((List.range n).map f).getD i d = f i := by
  rw [List.getD_eq_getElem?_getD, List.getElem?_map, List.getElem?_range h]
  rfl

lemma getD_map_range_list (f : ℕ → List ℕ) (n i : ℕ) (h : i < n) :
    ((List.range n).map f).getD i [] = f i := by
  rw [List.getD_eq_getElem?_getD, List.getElem?_map, List.getElem?_range h]
  rfl

lemma getD_range (n i : ℕ) (h : i < n) : (List.range n).getD i 0 = i := by
  rw [List.getD_eq_getElem?_getD, List.getElem?_range h]
  rfl

lemma flatten_extract (L : List (List ℕ)) :
    ∀ i, i < L.length →
      ((L.flatten.drop (((L.take i).map List.length).sum)).take
        (L.getD i []).length) = L.getD i [] := by
  induction L with
  | nil => intro i hi; simp at hi
  | cons x L ih =>
    intro i hi
    cases i with
    | zero =>
      simp only [List.take_zero, List.map_nil, List.sum_nil, List.drop_zero,
        List.getD_cons_zero, List.flatten_cons]
      exact List.take_left x L.flatten
    | succ i =>
      simp only [List.take_succ_cons, List.map_cons, List.sum_cons,
        List.getD_cons_succ, List.flatten_cons]
      rw [List.drop_append]
      exact ih i (by simpa using hi)

lemma Finalized_flatten_rowValues (s : MultiValSparseBin) (hf : Finalized s) :
    ((List.range s.num_data_).map (fun i => rowValues s i)).flatten =
      s.data_ := by
  have key : ∀ m, m ≤ s.num_data_ →
      ((List.range m).map (fun i => rowValues s i)).flatten =
        s.data_.take (RowPtr s m) := by
    intro m
    induction m with
    | zero =>
      intro _
      have h0 : RowPtr s 0 = 0 := hf.2.1
      simp [h0]
    | succ m ihm =>
      intro hm
      rw [List.range_succ, List.map_append, List.flatten_append,
        ihm (by omega)]
      simp only [List.map_cons, List.map_nil, List.flatten_cons,
        List.flatten_nil, List.append_nil]
      unfold rowValues
      rw [← List.take_add]
      have hmono := hf.2.2.1 m (by omega)
      have : RowPtr s m + (RowPtr s (m + 1) - RowPtr s m) = RowPtr s (m + 1) := by
        simp only [RowPtr]
        omega
      rw [this]
  rw [key s.num_data_ (le_refl _)]
  show List.take (s.row_ptr_.getD s.num_data_ 0) s.data_ = s.data_
  rw [← hf.2.2.2]
  exact List.take_length s.data_

lemma CopySubset_fold_invariant (s other : MultiValSparseBin)
    (used_indices : List ℕ) (hs0 : s.row_ptr_.getD 0 0 = 0) :
    ∀ m, m ≤ s.num_data_ →
      ((List.range m).foldl (CopySubsetStep other used_indices)
          { s with row_ptr_ := listResize s.row_ptr_ (s.num_data_ + 1),
                   data_ := [] }).data_ =
        ((List.range m).map
          (fun j => rowValues other (used_indices.getD j 0))).flatten ∧
      ((List.range m).foldl (CopySubsetStep other used_indices)
          { s with row_ptr_ := listResize s.row_ptr_ (s.num_data_ + 1),
                   data_ := [] }).row_ptr_.length = s.num_data_ + 1 ∧
      (∀ i, i ≤ m →
        ((List.range m).foldl (CopySubsetStep other used_indices)
            { s with row_ptr_ := listResize s.row_ptr_ (s.num_data_ + 1),
                     data_ := [] }).row_ptr_.getD i 0 =
          ((List.range i).map
            (fun j => RowPtr other (used_indices.getD j 0 + 1) -
              RowPtr other (used_indices.getD j 0))).sum) := by
  intro m
  induction m with
  | zero =>
    intro _
    refine ⟨rfl, listResize_length _ _, ?_⟩
    intro i hi
    have : i = 0 := by omega
    subst this
    show (listResize s.row_ptr_ (s.num_data_ + 1)).getD 0 0 = 0
    rw [listResize_getD_zero, hs0]
  | succ m ihm =>
    intro hm
    have ih := ihm (by omega)
    set F := (List.range m).foldl (CopySubsetStep other used_indices)
      { s with row_ptr_ := listResize s.row_ptr_ (s.num_data_ + 1),
               data_ := [] } with hF
    have hstep : (List.range (m + 1)).foldl (CopySubsetStep other used_indices)
        { s with row_ptr_ := listResize s.row_ptr_ (s.num_data_ + 1),
                 data_ := [] } = CopySubsetStep other used_indices F m := by
      rw [List.range_succ, List.foldl_append]
      simp only [List.foldl_cons, List.foldl_nil]
    refine ⟨?_, ?_, ?_⟩
    · rw [hstep]
      show F.data_ ++ rowValues other (used_indices.getD m 0) = _
      rw [ih.1, List.range_succ, List.map_append, List.flatten_append]
      simp
    · rw [hstep]
      show (F.row_ptr_.set (m + 1)
          (F.row_ptr_.getD m 0 +
            (RowPtr other (used_indices.getD m 0 + 1) -
              RowPtr other (used_indices.getD m 0)))).length = s.num_data_ + 1
      rw [List.length_set]
      exact ih.2.1
    · intro i hi
      rw [hstep]
      show (F.row_ptr_.set (m + 1)
          (F.row_ptr_.getD m 0 +
            (RowPtr other (used_indices.getD m 0 + 1) -
              RowPtr other (used_indices.getD m 0)))).getD i 0 = _
      rcases Nat.lt_or_ge i (m + 1) with hlt | hge
      · rw [getD_set_ne _ _ _ _ (by omega)]
        exact ih.2.2 i (by omega)
      · have hieq : i = m + 1 := by omega
        subst hieq
        rw [getD_set_self _ _ _ (by rw [ih.2.1]; omega)]
        rw [ih.2.2 m (le_refl _)]
        rw [List.range_succ, List.map_append, List.sum_append]
        simp

/-- Claim C4.  For every finalized source and row-id list of length count
(the destination having been resized to count rows and keeping
row_ptr_[0] = 0 as every construction path does), CopySubset makes
destination row i's value sequence exactly source row used_indices[i]'s
sequence verbatim, with consistent RowIndex offsets; and with
used_indices = [0..num_rows) the destination's RowIndex and consolidated
store equal the source's exactly. -/
theorem claim_C4_copy_subset (s other : MultiValSparseBin)
    (used_indices : List ℕ) (count : ℕ) (hf : Finalized other)
    (hu : ∀ i < count, used_indices.getD i 0 < other.num_data_)
    (hcnt : s.num_data_ = count) (hs0 : s.row_ptr_.getD 0 0 = 0) :
    (∀ i < count, rowValues (CopySubset s other used_indices count) i =
      rowValues other (used_indices.getD i 0)) ∧
    (∀ i < count, RowPtr (CopySubset s other used_indices count) (i + 1) =
      RowPtr (CopySubset s other used_indices count) i +
        (rowValues other (used_indices.getD i 0)).length) ∧
    (used_indices = List.range other.num_data_ → count = other.num_data_ →
      (CopySubset s other used_indices count).row_ptr_ = other.row_ptr_ ∧
      (CopySubset s other used_indices count).data_ = other.data_) := by
  have hinv := CopySubset_fold_invariant s other used_indices hs0 count
    (by omega)
  have hdest : CopySubset s other used_indices count =
      (List.range count).foldl (CopySubsetStep other used_indices)
        { s with row_ptr_ := listResize s.row_ptr_ (s.num_data_ + 1),
                 data_ := [] } := rfl
  have hdiff : ∀ j < count,
      RowPtr other (used_indices.getD j 0 + 1) -
        RowPtr other (used_indices.getD j 0) =
      (rowValues other (used_indices.getD j 0)).length := by
    intro j hj
    exact (Finalized_rowValues_length other hf _ (hu j hj)).symm
  have hchar : ∀ i, i ≤ count →
      RowPtr (CopySubset s other used_indices count) i =
        ((List.range i).map
          (fun j => RowPtr other (used_indices.getD j 0 + 1) -
            RowPtr other (used_indices.getD j 0))).sum := by
    intro i hi
    show (CopySubset s other used_indices count).row_ptr_.getD i 0 = _
    rw [hdest]
    exact hinv.2.2 i hi
  have hdata : (CopySubset s other used_indices count).data_ =
      ((List.range count).map
        (fun j => rowValues other (used_indices.getD j 0))).flatten := by
    rw [hdest]
    exact hinv.1
  have hlen : (CopySubset s other used_indices count).row_ptr_.length =
      count + 1 := by
    rw [hdest, hinv.2.1, hcnt]
  have hsum_shape : ∀ i, i ≤ count →
      ((List.range i).map
        (fun j => RowPtr other (used_indices.getD j 0 + 1) -
          RowPtr other (used_indices.getD j 0))).sum =
      ((((List.range count).map
          (fun j => rowValues other (used_indices.getD j 0))).take i).map
        List.length).sum := by
    intro i hi
    rw [← List.map_take, List.take_range]
    have hmin : min i count = i := by omega
    rw [hmin, List.map_map]
    refine congrArg List.sum (List.map_congr_left ?_)
    intro j hj
    have hji : j < i := List.mem_range.mp hj
    exact hdiff j (by omega)
  refine ⟨?_, ?_, ?_⟩
  · intro i hi
    have hgoal : rowValues (CopySubset s other used_indices count) i =
        ((CopySubset s other used_indices count).data_.drop
          (RowPtr (CopySubset s other used_indices count) i)).take
          (RowPtr (CopySubset s other used_indices count) (i + 1) -
            RowPtr (CopySubset s other used_indices count) i) := rfl
    rw [hgoal, hchar i (by omega), hchar (i + 1) (by omega), hdata]
    have hsub : ((List.range (i + 1)).map
        (fun j => RowPtr other (used_indices.getD j 0 + 1) -
          RowPtr other (used_indices.getD j 0))).sum -
        ((List.range i).map
          (fun j => RowPtr other (used_indices.getD j 0 + 1) -
            RowPtr other (used_indices.getD j 0))).sum =
        (rowValues other (used_indices.getD i 0)).length := by
      rw [List.range_succ, List.map_append, List.sum_append]
      simp only [List.map_cons, List.map_nil, List.sum_cons, List.sum_nil,
        Nat.add_zero]
      rw [hdiff i hi]
      omega
    rw [hsub, hsum_shape i (by omega)]
    have hgetd : rowValues other (used_indices.getD i 0) =
        ((List.range count).map
          (fun j => rowValues other (used_indices.getD j 0))).getD i [] := by
      rw [getD_map_range_list _ _ _ hi]
    rw [hgetd]
    exact flatten_extract _ i (by simpa using hi)
  · intro i hi
    rw [hchar i (by omega), hchar (i + 1) (by omega), List.range_succ,
      List.map_append, List.sum_append]
    simp only [List.map_cons, List.map_nil, List.sum_cons, List.sum_nil,
      Nat.add_zero]
    rw [hdiff i hi]
  · intro hused hcount2
    have hgetused : ∀ j < count, used_indices.getD j 0 = j := by
      intro j hj
      rw [hused]
      exact getD_range _ _ (by omega)
    constructor
    · apply List.ext_getElem
      · rw [hlen, hf.1, hcount2]
      · intro i h1 h2
        have hic : i ≤ count := by
          rw [hlen] at h1
          omega
        rw [← List.getD_eq_getElem _ 0 h1, ← List.getD_eq_getElem _ 0 h2]
        have hd : (CopySubset s other used_indices count).row_ptr_.getD i 0 =
            ((List.range i).map
              (fun j => RowPtr other (used_indices.getD j 0 + 1) -
                RowPtr other (used_indices.getD j 0))).sum := hchar i hic
        rw [hd]
        have hcongr : ((List.range i).map
            (fun j => RowPtr other (used_indices.getD j 0 + 1) -
              RowPtr other (used_indices.getD j 0))).sum =
            ((List.range i).map
              (fun j => RowPtr other (j + 1) - RowPtr other j)).sum := by
          refine congrArg List.sum (List.map_congr_left ?_)
          intro j hj
          have hji : j < i := List.mem_range.mp hj
          rw [hgetused j (by omega)]
        rw [hcongr, ← Finalized_rowPtr_telescope other hf i (by omega)]
        rfl
    · rw [hdata]
      have hcongr2 : (List.range count).map
          (fun j => rowValues other (used_indices.getD j 0)) =
          (List.range count).map (fun j => rowValues other j) := by
        refine List.map_congr_left ?_
        intro j hj
        rw [hgetused j (List.mem_range.mp hj)]
      rw [hcongr2, hcount2]
      exact Finalized_flatten_rowValues other hf

/-- Witness for claim C4: copying rows [2,0] of the worked example. -/
theorem claim_C4_copy_subset_witness :
    rowValues (CopySubset ⟨2, 8, some 1, [], [0, 0, 0], []⟩ exampleBin
      [2, 0] 2) 0 = rowValues exampleBin 2 :=
  (claim_C4_copy_subset ⟨2, 8, some 1, [], [0, 0, 0], []⟩ exampleBin [2, 0] 2
    (by decide) (by decide) (by decide) (by decide)).1 0 (by decide)
